import Mathlib

/-!
Verification development for the NormalForge mesh add-on family
(`normalforge.py`, `auto_custom_normals.py`, `non_destructive_normals.py`).

The Python sources are shallowly embedded: per-edge attribute records stand
for bmesh edges, lists of slot names stand for material slots, rationals
stand for the float attributes (face areas, bevel weights, angle values are
input data computed by the host and compared exactly as the code compares
them), and the host operators invoked after a workflow's early-exit checks
are taken as opaque function parameters.
-/

/-- Per-edge state of a bmesh edge as the propagators see it: the indices of
the adjacent faces (`edge.link_faces`), the angle between the two adjacent
face normals (meaningful when there are exactly two), the bevel-weight layer
value, the `smooth` flag (sharp = not smooth) and the `seam` flag. -/
structure BEdge where
  linkFaces : List Nat
  faceAngle : ℚ
  weight : ℚ
  smooth : Bool
  seam : Bool
deriving DecidableEq

/-- Body of the edge loop of `edges_by_angle` in `normalforge.py` (lines
194-206): a 2-face edge gets weight 1 when the face angle exceeds the
threshold, a boundary (1-face) edge always gets weight 1, all other edges
are untouched.  The `smooth` flag is not modified by this variant. -/
def edgesByAngleUpdate (t : ℚ) (e : BEdge) : BEdge :=
  if e.linkFaces.length = 2 then
    if t < e.faceAngle then { e with weight := 1 } else e
  else if e.linkFaces.length = 1 then { e with weight := 1 }
  else e

/-- The edges touched (counted) by `edges_by_angle`. -/
def edgesByAngleTouched (t : ℚ) (e : BEdge) : Bool :=
  decide ((e.linkFaces.length = 2 ∧ t < e.faceAngle) ∨ e.linkFaces.length = 1)

/-- `edges_by_angle(bm, angle_threshold)` from `normalforge.py`: updates every
edge and returns the count of edges it set. -/
def edges_by_angle (t : ℚ) (es : List BEdge) : List BEdge × Nat :=
  (es.map (edgesByAngleUpdate t), es.countP (edgesByAngleTouched t))

/-- Body of the edge loop of `auto_sharp_to_bevel_weight` in
`auto_custom_normals.py` and `non_destructive_normals.py` (lines 86-100):
like `edgesByAngleUpdate` but every weighted edge also gets
`edge.smooth = False` (the sharp flag is forced true). -/
def autoSharpUpdate (t : ℚ) (e : BEdge) : BEdge :=
  if e.linkFaces.length = 2 then
    if t < e.faceAngle then { e with weight := 1, smooth := false } else e
  else if e.linkFaces.length = 1 then { e with weight := 1, smooth := false }
  else e

/-- `auto_sharp_to_bevel_weight(bm, angle_threshold)` from
`auto_custom_normals.py` / `non_destructive_normals.py`. -/
def auto_sharp_to_bevel_weight (t : ℚ) (es : List BEdge) : List BEdge × Nat :=
  (es.map (autoSharpUpdate t), es.countP (edgesByAngleTouched t))

/-- `sharp_edges_to_bevel_weight(bm)`: weight 1 on every non-smooth edge,
returning the count of such edges. -/
def sharp_edges_to_bevel_weight (es : List BEdge) : List BEdge × Nat :=
  (es.map (fun e => if e.smooth then e else { e with weight := 1 }),
   es.countP (fun e => !e.smooth))

/-- `mark_seams_from_bevel_weight(bm)`: seam true on every edge with positive
weight, returning the count. -/
def mark_seams_from_bevel_weight (es : List BEdge) : List BEdge × Nat :=
  (es.map (fun e => if 0 < e.weight then { e with seam := true } else e),
   es.countP (fun e => decide (0 < e.weight)))

/-- Weight source selector of `prepare_bevel_weights` in `normalforge.py`. -/
inductive WeightSource
  | bevelWeight
  | angle
deriving DecidableEq

/-- `prepare_bevel_weights(obj, source, angle_threshold)` from
`normalforge.py` (lines 209-232).  With source `BEVEL_WEIGHT` it counts the
already-weighted edges and falls back to `edges_by_angle` when the count is
zero; with source `ANGLE` it zeroes every weight and runs `edges_by_angle`.
The updated edge list is always written back to the mesh. -/
def prepare_bevel_weights (src : WeightSource) (es : List BEdge) (t : ℚ) :
    List BEdge × Nat :=
  match src with
  | .bevelWeight =>
      let c := es.countP (fun e => decide (0 < e.weight))
      if c = 0 then edges_by_angle t es else (es, c)
  | .angle => edges_by_angle t (es.map fun e => { e with weight := 0 })

/-- Mesh datablock content relevant to the snapshot claims: vertex
positions, faces as ordered vertex-index lists (the winding), and the
per-edge attributes. -/
structure MeshData where
  verts : List (ℚ × ℚ × ℚ)
  faces : List (List Nat)
  edges : List BEdge
deriving DecidableEq

/-- State of one object together with the host datablock store:
the object's current mesh content and name, the named backup meshes living
in `bpy.data.meshes`, the `nf_backup_mesh` custom property, and the
object's material slot names. -/
structure NFState where
  objMesh : MeshData
  objMeshName : String
  backups : List (String × MeshData)
  backupKey : Option String
  materials : List String
deriving DecidableEq

/-- `create_mesh_backup(obj)` from `normalforge.py` (lines 368-381): remove
the previously recorded backup datablock if any, deep-copy the current mesh
under a fresh uuid-suffixed name, and record that name in the custom
property.  The fresh name is a parameter standing for the uuid draw. -/
def create_mesh_backup (s : NFState) (freshName : String) : NFState :=
  let backups1 := match s.backupKey with
    | some old => s.backups.eraseP (fun p => p.1 == old)
    | none => s.backups
  { s with backups := backups1 ++ [(freshName, s.objMesh)],
           backupKey := some freshName }

/-- `has_backup(obj)` from `normalforge.py`: the custom property is set and
the named mesh still exists. -/
def has_backup (s : NFState) : Bool :=
  match s.backupKey with
  | none => false
  | some name => (s.backups.lookup name).isSome

/-- `restore_mesh_backup(obj)` from `normalforge.py` (lines 390-411): fails
when no key or no datablock; otherwise replaces the object's mesh with a
copy of the backup (keeping the current mesh name), removes the old current
mesh and the backup datablock, and deletes the custom property. -/
def restore_mesh_backup (s : NFState) : Bool × NFState :=
  match s.backupKey with
  | none => (false, s)
  | some name =>
      match s.backups.lookup name with
      | none => (false, s)
      | some b =>
          (true, { s with objMesh := b,
                          backups := s.backups.eraseP (fun p => p.1 == name),
                          backupKey := none })

/-- `create_mesh_backup(obj)` from `non_destructive_normals.py` (lines
196-204): the backup name is the mesh name plus a fixed suffix; an existing
mesh of that name is removed and replaced by a copy of the current mesh.
No custom property is involved in this variant. -/
def create_mesh_backup_nd (s : NFState) : NFState :=
  let bname := s.objMeshName ++ "_ACN_Backup"
  { s with backups := (s.backups.eraseP (fun p => p.1 == bname))
                        ++ [(bname, s.objMesh)] }

/-- Operator return status. -/
inductive OpResult
  | FINISHED
  | CANCELLED
deriving DecidableEq

/-- `NF_OT_from_auto_sharp.execute` from `normalforge.py` (lines 510-525):
run `prepare_bevel_weights` with source `ANGLE` (which writes the updated
weights back to the mesh), cancel when the count is zero, and only otherwise
create the mesh backup and run the bevel workflow.  The workflow after the
backup invokes external host operators and is the opaque parameter `wf`. -/
def nf_from_auto_sharp_execute (wf : NFState → NFState) (s : NFState)
    (t : ℚ) (freshName : String) : OpResult × NFState :=
  let p := prepare_bevel_weights .angle s.objMesh.edges t
  let s1 := { s with objMesh := { s.objMesh with edges := p.1 } }
  if p.2 = 0 then (.CANCELLED, s1)
  else (.FINISHED, wf (create_mesh_backup s1 freshName))

/-- `ACN_OT_from_sharp.execute` from `auto_custom_normals.py` (lines
270-295): convert sharp edges on a scratch bmesh, cancel without writing
anything when the count is zero, otherwise mark seams, write back, create
the backup and run the workflow (opaque parameter `wf`). -/
def acn_from_sharp_execute (wf : NFState → NFState) (s : NFState)
    (freshName : String) : OpResult × NFState :=
  let p := sharp_edges_to_bevel_weight s.objMesh.edges
  if p.2 = 0 then (.CANCELLED, s)
  else
    let es2 := (mark_seams_from_bevel_weight p.1).1
    let s1 := { s with objMesh := { s.objMesh with edges := es2 } }
    (.FINISHED, wf (create_mesh_backup s1 freshName))

/-- `ACN_OT_from_sharp.execute` from `non_destructive_normals.py` (lines
271-296): this variant calls `create_mesh_backup` BEFORE converting sharp
edges, then cancels (without writing the scratch bmesh back) when the count
is zero.  The remaining workflow is the opaque parameter `wf`. -/
def acn_nd_from_sharp_execute (wf : NFState → NFState) (s : NFState) :
    OpResult × NFState :=
  let s1 := create_mesh_backup_nd s
  let p := sharp_edges_to_bevel_weight s1.objMesh.edges
  if p.2 = 0 then (.CANCELLED, s1)
  else
    let es2 := (mark_seams_from_bevel_weight p.1).1
    (.FINISHED, wf { s1 with objMesh := { s1.objMesh with edges := es2 } })

/-- `create_unique_tag_material(obj)` from `normalforge.py` (lines 235-246):
insert a `_NF_Default` slot when the mesh has none, append the fresh tag
slot, and return its index.  Slots are modelled by their material names; the
uuid-suffixed tag name is a parameter. -/
def create_unique_tag_material (slots : List String) (tagName : String) :
    List String × Nat :=
  let slots1 := if slots.length = 0 then slots ++ ["_NF_Default"] else slots
  let slots2 := slots1 ++ [tagName]
  (slots2, slots2.length - 1)

/-- `create_unique_tag_material(obj)` from `auto_custom_normals.py` (lines
113-120): append the fresh tag slot with no default-slot guard. -/
def create_unique_tag_material_acn (slots : List String) (tagName : String) :
    List String × Nat :=
  let slots2 := slots ++ [tagName]
  (slots2, slots2.length - 1)

/-- `setup_material_tagging(obj)` from `non_destructive_normals.py` (lines
121-134): reuse an existing `_ACN_BevelTag` slot, else append one; no
default-slot guard. -/
def setup_material_tagging (slots : List String) : List String × Nat :=
  match slots.findIdx? (fun n => n == "_ACN_BevelTag") with
  | some i => (slots, i)
  | none => (slots ++ ["_ACN_BevelTag"], slots.length)

/-- Face loop body of `cleanup_tag_material`: a face on the tag slot is sent
to slot 0, a face above the tag slot is decremented, others are kept. -/
def cleanupRemap (ti m : Nat) : Nat :=
  if m = ti then 0 else if ti < m then m - 1 else m

/-- `cleanup_tag_material(obj, tag_name)` from `auto_custom_normals.py`
(lines 123-148), also the first pass of the `normalforge.py` version (lines
249-299): locate the slot bound to the tag name, remap every face's
`material_index` with `cleanupRemap`, then remove the slot.  When the tag
slot is absent the mesh is left unchanged. -/
def cleanup_tag_material (slots : List String) (tagName : String)
    (faceMats : List Nat) : List String × List Nat :=
  match slots.findIdx? (fun n => n == tagName) with
  | none => (slots, faceMats)
  | some ti => (slots.eraseIdx ti, faceMats.map (cleanupRemap ti))

/-- Median selection of `detect_bevel_faces` in `normalforge.py` (lines
583-584): sort the areas ascending and take the element at index
`len // 2`. -/
def medianArea (areas : List ℚ) : ℚ :=
  (areas.insertionSort (· ≤ ·)).getD ((areas.insertionSort (· ≤ ·)).length / 2) 0

/-- A bmesh face as `detect_bevel_faces` sees it: its index, its area
(`calc_area()` is host geometry, taken as input data) and the ids of the
edges bounding it (used for the shared-edge adjacency). -/
structure DFace where
  index : Nat
  area : ℚ
  edges : Finset Nat
deriving DecidableEq

/-- A mesh as `detect_bevel_faces` sees it. -/
structure DMesh where
  faces : List DFace
deriving DecidableEq

/-- Adjacency map of `detect_bevel_faces` (lines 604-611): the neighbours of
face `i` are the indices of the other faces sharing at least one edge with
it (`edge.link_faces` of each of its edges). -/
def neighborsOf (m : DMesh) (i : Nat) : Finset Nat :=
  match m.faces.find? (fun f => f.index == i) with
  | none => ∅
  | some f =>
      ((m.faces.filter
          (fun g => decide (g.index ≠ f.index ∧ (f.edges ∩ g.edges).Nonempty))).map
        DFace.index).toFinset

/-- The flood-fill loop of `detect_bevel_faces` (lines 620-627): pop a face
from the frontier, skip it when already confirmed, otherwise confirm it and
push its still-small unconfirmed neighbours.  The Python `set.pop` order is
arbitrary; this executable refinement pops the minimum (the relational
semantics `FloodStep` below captures every order).  The invariant that the
frontier only holds small faces is threaded through for termination. -/
def floodFill (nbrs : Nat → Finset Nat) (small : Finset Nat)
    (confirmed frontier : Finset Nat) (hf : frontier ⊆ small) : Finset Nat :=
  if h : frontier.Nonempty then
    if hx : frontier.min' h ∈ confirmed then
      floodFill nbrs small confirmed (frontier.erase (frontier.min' h))
        (fun y hy => hf (Finset.mem_of_mem_erase hy))
    else
      floodFill nbrs small (insert (frontier.min' h) confirmed)
        ((frontier.erase (frontier.min' h)) ∪
          ((nbrs (frontier.min' h) ∩ small) \ insert (frontier.min' h) confirmed))
        (by
          intro y hy
          rcases Finset.mem_union.mp hy with h1 | h1
          · exact hf (Finset.mem_of_mem_erase h1)
          · exact (Finset.mem_inter.mp (Finset.mem_sdiff.mp h1).1).2)
  else confirmed
termination_by ((small \ confirmed).card, frontier.card)
decreasing_by
  · apply Prod.Lex.right
    exact Finset.card_erase_lt_of_mem (frontier.min'_mem h)
  · apply Prod.Lex.left
    rw [Finset.sdiff_insert]
    exact Finset.card_erase_lt_of_mem
      (Finset.mem_sdiff.mpr ⟨hf (frontier.min'_mem h), hx⟩)

/-- Cutoff of `detect_bevel_faces` (line 590): median area times the
caller-supplied detection quotient. -/
def cutoffOf (m : DMesh) (r : ℚ) : ℚ :=
  medianArea (m.faces.map DFace.area) * r

/-- The `small_faces` partition of `detect_bevel_faces` (lines 592-598):
indices of faces with area strictly below the cutoff. -/
def smallSet (m : DMesh) (r : ℚ) : Finset Nat :=
  ((m.faces.filter (fun f => decide (f.area < cutoffOf m r))).map DFace.index).toFinset

/-- The `large_faces` partition: indices of faces with area at or above the
cutoff. -/
def largeSet (m : DMesh) (r : ℚ) : Finset Nat :=
  ((m.faces.filter (fun f => decide (¬ f.area < cutoffOf m r))).map DFace.index).toFinset

/-- Frontier seeding of `detect_bevel_faces` (lines 614-618): every small
face adjacent to some large face. -/
def seedsOf (m : DMesh) (r : ℚ) : Finset Nat :=
  (largeSet m r).biUnion (fun i => neighborsOf m i ∩ smallSet m r)

/-- The seed frontier only holds small faces. -/
theorem seedsOf_subset_smallSet (m : DMesh) (r : ℚ) : seedsOf m r ⊆ smallSet m r := by
  intro y hy
  rcases Finset.mem_biUnion.mp hy with ⟨i, _, hi⟩
  exact (Finset.mem_inter.mp hi).2

/-- The `confirmed_bevel` set computed by the flood fill of
`detect_bevel_faces`. -/
def confirmedSet (m : DMesh) (r : ℚ) : Finset Nat :=
  floodFill (neighborsOf m) (smallSet m r) ∅ (seedsOf m r)
    (seedsOf_subset_smallSet m r)

/-- `detect_bevel_faces(obj, ratio_threshold)` from `normalforge.py` (lines
574-635): abort with `(0, ∅)` on fewer than 2 faces, nonpositive median, or
an empty partition; otherwise flood-fill the small faces from the large
boundary and return the confirmed count together with the original face
index set (large faces plus unreached small faces). -/
def detect_bevel_faces (m : DMesh) (r : ℚ) : Nat × Finset Nat :=
  if m.faces.length < 2 then (0, ∅)
  else if medianArea (m.faces.map DFace.area) ≤ 0 then (0, ∅)
  else if smallSet m r = ∅ ∨ largeSet m r = ∅ then (0, ∅)
  else ((confirmedSet m r).card,
        largeSet m r ∪ (smallSet m r \ confirmedSet m r))

/-- The abort guard of `detect_bevel_faces`: any of the three early-return
conditions. -/
def detectAborts (m : DMesh) (r : ℚ) : Prop :=
  m.faces.length < 2 ∨ medianArea (m.faces.map DFace.area) ≤ 0 ∨
    smallSet m r = ∅ ∨ largeSet m r = ∅

instance (m : DMesh) (r : ℚ) : Decidable (detectAborts m r) := by
  unfold detectAborts; infer_instance

/-- One step of the flood-fill loop with an arbitrary `set.pop` choice: a
state is the pair (confirmed, frontier); popping an already-confirmed face
drops it, popping a fresh face confirms it and pushes its still-small
unconfirmed neighbours. -/
inductive FloodStep (nbrs : Nat → Finset Nat) (small : Finset Nat) :
    Finset Nat × Finset Nat → Finset Nat × Finset Nat → Prop
  | skip (c F : Finset Nat) (x : Nat) (hxF : x ∈ F) (hxc : x ∈ c) :
      FloodStep nbrs small (c, F) (c, F.erase x)
  | confirm (c F : Finset Nat) (x : Nat) (hxF : x ∈ F) (hxc : x ∉ c) :
      FloodStep nbrs small (c, F)
        (insert x c, (F.erase x) ∪ ((nbrs x ∩ small) \ insert x c))

/-- Any number of flood-fill steps, in any pop order. -/
def FloodExec (nbrs : Nat → Finset Nat) (small : Finset Nat) :
    Finset Nat × Finset Nat → Finset Nat × Finset Nat → Prop :=
  Relation.ReflTransGen (FloodStep nbrs small)

/-- The loop has terminated: the frontier is empty. -/
def FloodDone (s : Finset Nat × Finset Nat) : Prop := s.2 = ∅

/-- Initial flood-fill state of `detect_bevel_faces`: nothing confirmed and
the seeded frontier. -/
def initFlood (m : DMesh) (r : ℚ) : Finset Nat × Finset Nat :=
  (∅, seedsOf m r)

/-- Reachability through small faces avoiding a set: `ReachAvoid nbrs small
avoid x y` holds when there is a path from `x` to `y` whose vertices all lie
in `small` and outside `avoid`, following the adjacency map. -/
inductive ReachAvoid (nbrs : Nat → Finset Nat) (small avoid : Finset Nat)
    (x : Nat) : Nat → Prop
  | refl (hs : x ∈ small) (ha : x ∉ avoid) : ReachAvoid nbrs small avoid x x
  | tail (y z : Nat) (hxy : ReachAvoid nbrs small avoid x y) (hz : z ∈ nbrs y)
      (hzs : z ∈ small) (hza : z ∉ avoid) : ReachAvoid nbrs small avoid x z

/-- A face is flood-reachable when some seed reaches it through small
faces. -/
def FloodReach (nbrs : Nat → Finset Nat) (small F0 : Finset Nat) (y : Nat) : Prop :=
  ∃ f ∈ F0, ReachAvoid nbrs small ∅ f y

/-- Helper: the `smooth` flag is never modified by `edges_by_angle`'s edge
update in `normalforge.py`. -/
theorem edgesByAngleUpdate_smooth (t : ℚ) (e : BEdge) :
    (edgesByAngleUpdate t e).smooth = e.smooth := by
  unfold edgesByAngleUpdate
  split
  · split <;> rfl
  · split <;> rfl

/-- C1 counterexample: on a mesh with two faces of areas 1 and 2, the median
used by `detect_bevel_faces` is 2, the upper-middle element of the sorted
list; it is not the lower-middle element 1 claimed by the spec, and not the
average 3/2. -/
theorem median_even_counterexample :
    medianArea [1, 2] = 2 ∧ medianArea [1, 2] ≠ 1 ∧ medianArea [1, 2] ≠ 3 / 2 := by
  have h1 : medianArea [1, 2] = 2 := by decide
  refine ⟨h1, ?_, ?_⟩ <;> rw [h1] <;> norm_num

/-- C1 (amended): for every area list with at least two elements, the median
used by `detect_bevel_faces` is a member of the list, is the element at
index `length / 2` of the ascending sort (the middle element for odd
counts), and for even counts `2 * k` it is the upper-middle element: the
lower-middle element at index `k - 1` is at most the median. -/
theorem median_is_sorted_upper_middle (areas : List ℚ) (h2 : 2 ≤ areas.length) :
    medianArea areas ∈ areas ∧
    medianArea areas = (areas.insertionSort (· ≤ ·)).getD (areas.length / 2) 0 ∧
    ∀ k, areas.length = 2 * k →
      (areas.insertionSort (· ≤ ·)).getD (k - 1) 0 ≤ medianArea areas := by
  have hlen : (areas.insertionSort (· ≤ ·)).length = areas.length :=
    List.length_insertionSort _ _
  have hpos : 0 < areas.length := by omega
  have hidx : areas.length / 2 < areas.length := Nat.div_lt_self hpos (by omega)
  have hidx2 : (areas.insertionSort (· ≤ ·)).length / 2 <
      (areas.insertionSort (· ≤ ·)).length := by
    rw [hlen]; exact hidx
  refine ⟨?_, ?_, ?_⟩
  · unfold medianArea
    rw [List.getD_eq_getElem _ _ hidx2]
    exact (List.mem_insertionSort _).mp (List.getElem_mem hidx2)
  · unfold medianArea
    rw [hlen]
  · intro k hk
    have hk1 : 1 ≤ k := by omega
    have hlt1 : k - 1 < (areas.insertionSort (· ≤ ·)).length := by omega
    unfold medianArea
    rw [List.getD_eq_getElem _ _ hlt1, List.getD_eq_getElem _ _ hidx2]
    have hs := List.sorted_insertionSort (· ≤ ·) areas
    have hfin : (⟨k - 1, hlt1⟩ : Fin (areas.insertionSort (· ≤ ·)).length) <
        ⟨(areas.insertionSort (· ≤ ·)).length / 2, hidx2⟩ := by
      show k - 1 < (areas.insertionSort (· ≤ ·)).length / 2
      omega
    have hrel := hs.rel_get_of_lt hfin
    simpa using hrel

/-- Witness for the amended C1 statement at the concrete area list `[1, 2]`
(length 4 is not needed; length 2 = 2 * 1 exercises the even case). -/
theorem median_is_sorted_upper_middle_witness :
    medianArea [1, 2] ∈ ([1, 2] : List ℚ) ∧
    (([1, 2] : List ℚ).insertionSort (· ≤ ·)).getD 0 0 ≤ medianArea [1, 2] := by
  have h := median_is_sorted_upper_middle [1, 2] (by decide)
  exact ⟨h.1, h.2.2 1 (by decide)⟩

/-- C5 counterexample: `edges_by_angle` in `normalforge.py` gives weight 1
to a 2-face edge whose face angle 1 exceeds the threshold 0, yet leaves the
edge's `smooth` flag true: the sharp flag is not forced by this variant of
the angle propagation. -/
theorem edges_by_angle_no_sharp_counterexample :
    (edges_by_angle 0 [⟨[0, 1], 1, 0, true, false⟩]).1 =
      [⟨[0, 1], 1, 1, true, false⟩] ∧
    (⟨[0, 1], 1, 1, true, false⟩ : BEdge).weight = 1 ∧
    (⟨[0, 1], 1, 1, true, false⟩ : BEdge).smooth = true := by
  refine ⟨by decide, rfl, rfl⟩

/-- C5 (amended): on a 2-face edge the angle propagation gives weight 1
exactly when the face angle exceeds the threshold, leaving the edge
untouched otherwise; the `auto_sharp_to_bevel_weight` variants
(`auto_custom_normals.py`, `non_destructive_normals.py`) additionally force
the sharp flag (`smooth := false`) on every edge they weight, while
`edges_by_angle` in `normalforge.py` sets only the weight and never changes
the `smooth` flag. -/
theorem from_angle_weight_and_sharp (t : ℚ) (e : BEdge) (es : List BEdge)
    (h2 : e.linkFaces.length = 2) :
    (t < e.faceAngle →
      (autoSharpUpdate t e).weight = 1 ∧ (autoSharpUpdate t e).smooth = false ∧
      (edgesByAngleUpdate t e).weight = 1) ∧
    (¬ t < e.faceAngle →
      autoSharpUpdate t e = e ∧ edgesByAngleUpdate t e = e) ∧
    (edgesByAngleUpdate t e).smooth = e.smooth ∧
    (auto_sharp_to_bevel_weight t es).1 = es.map (autoSharpUpdate t) ∧
    (edges_by_angle t es).1 = es.map (edgesByAngleUpdate t) := by
  refine ⟨?_, ?_, edgesByAngleUpdate_smooth t e, rfl, rfl⟩
  · intro hlt
    unfold autoSharpUpdate edgesByAngleUpdate
    simp [h2, hlt]
  · intro hge
    unfold autoSharpUpdate edgesByAngleUpdate
    simp [h2, hge]

/-- Witness for the amended C5 statement at a concrete 2-face edge with
angle 1 and threshold 0. -/
theorem from_angle_weight_and_sharp_witness :
    (autoSharpUpdate 0 ⟨[0, 1], 1, 0, true, false⟩).weight = 1 ∧
    (autoSharpUpdate 0 ⟨[0, 1], 1, 0, true, false⟩).smooth = false ∧
    (edgesByAngleUpdate 0 ⟨[0, 1], 1, 0, true, false⟩).weight = 1 := by
  exact (from_angle_weight_and_sharp 0 ⟨[0, 1], 1, 0, true, false⟩ []
    (by decide)).1 (by decide)

/-- C6 (confirmed): the angle propagation never touches a 2-face edge whose
face angle is at or below the threshold, always gives weight 1 to a
boundary edge (exactly one adjacent face) regardless of the threshold, and
leaves edges with zero or more than two adjacent faces untouched — in both
the `edges_by_angle` and the `auto_sharp_to_bevel_weight` variants. -/
theorem from_angle_threshold_boundary_skip (t : ℚ) (e : BEdge) (es : List BEdge) :
    (e.linkFaces.length = 2 → e.faceAngle ≤ t →
      edgesByAngleUpdate t e = e ∧ autoSharpUpdate t e = e) ∧
    (e.linkFaces.length = 1 →
      (edgesByAngleUpdate t e).weight = 1 ∧ (autoSharpUpdate t e).weight = 1) ∧
    (e.linkFaces.length = 0 ∨ 3 ≤ e.linkFaces.length →
      edgesByAngleUpdate t e = e ∧ autoSharpUpdate t e = e) ∧
    (edges_by_angle t es).1 = es.map (edgesByAngleUpdate t) ∧
    (auto_sharp_to_bevel_weight t es).1 = es.map (autoSharpUpdate t) := by
  refine ⟨?_, ?_, ?_, rfl, rfl⟩
  · intro h2 hle
    have hnlt : ¬ t < e.faceAngle := not_lt.mpr hle
    unfold edgesByAngleUpdate autoSharpUpdate
    simp [h2, hnlt]
  · intro h1
    unfold edgesByAngleUpdate autoSharpUpdate
    simp [h1]
  · intro h0
    have hne2 : e.linkFaces.length ≠ 2 := by omega
    have hne1 : e.linkFaces.length ≠ 1 := by omega
    unfold edgesByAngleUpdate autoSharpUpdate
    simp [hne2, hne1]

/-- Witness for C6 at a boundary edge and at a below-threshold 2-face
edge. -/
theorem from_angle_threshold_boundary_skip_witness :
    (edgesByAngleUpdate 2 ⟨[5], 0, 0, true, false⟩).weight = 1 ∧
    (autoSharpUpdate 2 ⟨[5], 0, 0, true, false⟩).weight = 1 ∧
    edgesByAngleUpdate 2 ⟨[4, 5], 1, 0, true, false⟩ = ⟨[4, 5], 1, 0, true, false⟩ := by
  refine ⟨?_, ?_, ?_⟩
  · exact ((from_angle_threshold_boundary_skip 2 ⟨[5], 0, 0, true, false⟩ []).2.1
      (by decide)).1
  · exact ((from_angle_threshold_boundary_skip 2 ⟨[5], 0, 0, true, false⟩ []).2.1
      (by decide)).2
  · exact ((from_angle_threshold_boundary_skip 2 ⟨[4, 5], 1, 0, true, false⟩ []).1
      (by decide) (by norm_num)).1

/-- C3 counterexample: the `create_unique_tag_material` of
`auto_custom_normals.py`, applied to a mesh with zero material slots,
appends no default slot and returns tag slot index 0, contradicting the
claim that the begin operation always inserts a neutral default slot first
so that the tag slot index is never 0. -/
theorem acn_tag_slot_index_zero_counterexample :
    create_unique_tag_material_acn [] "_ACN_Tag_ab12cd34" =
      (["_ACN_Tag_ab12cd34"], 0) ∧
    setup_material_tagging [] = (["_ACN_BevelTag"], 0) := by
  constructor <;> rfl

/-- C3 (amended): in `normalforge.py`, `create_unique_tag_material` inserts
the `_NF_Default` slot first on a zero-slot mesh, and its returned tag slot
index is always at least 1, with slot 0 holding a non-tag material — but
the `auto_custom_normals.py` and `non_destructive_normals.py` begin
operations lack the default-slot guard and return tag slot index 0 on a
zero-slot mesh. -/
theorem nf_tag_slot_index_positive (slots : List String) (tagName : String)
    (hdef : tagName ≠ "_NF_Default") (hmem : tagName ∉ slots) :
    1 ≤ (create_unique_tag_material slots tagName).2 ∧
    (slots.length = 0 →
      (create_unique_tag_material slots tagName).1 = ["_NF_Default", tagName]) ∧
    ((create_unique_tag_material slots tagName).1)[0]? ≠ some tagName := by
  unfold create_unique_tag_material
  cases slots with
  | nil =>
      refine ⟨by simp, fun _ => by simp, ?_⟩
      simpa using fun h => hdef h.symm
  | cons a as =>
      refine ⟨by simp, fun h => by simp at h, ?_⟩
      have ha : a ≠ tagName := by
        intro h
        exact hmem (h ▸ List.mem_cons_self a as)
      simpa using ha

/-- Witness for the amended C3 statement on a zero-slot mesh with a
concrete uuid-suffixed tag name. -/
theorem nf_tag_slot_index_positive_witness :
    1 ≤ (create_unique_tag_material [] "_NF_Tag_ab12cd34").2 ∧
    (create_unique_tag_material [] "_NF_Tag_ab12cd34").1 =
      ["_NF_Default", "_NF_Tag_ab12cd34"] := by
  have h := nf_tag_slot_index_positive [] "_NF_Tag_ab12cd34"
    (by decide) (by simp)
  exact ⟨h.1, h.2.1 rfl⟩

/-- C2 counterexample: cleaning up the tag slot on a mesh whose slots are
`["Base", "TAG"]` with one face tagged (material index 1) reassigns that
face to slot 0, which holds `"Base"`; before cleanup the face referred to
`"TAG"`, so not every face refers to the same material after cleanup as
before. -/
theorem cleanup_tagged_face_material_counterexample :
    cleanup_tag_material ["Base", "TAG"] "TAG" [1] = (["Base"], [0]) ∧
    (["Base", "TAG"] : List String)[1]? = some "TAG" ∧
    (["Base"] : List String)[0]? = some "Base" ∧
    some "TAG" ≠ some "Base" := by
  refine ⟨by rfl, rfl, rfl, by decide⟩

/-- C2 (amended): when the tag slot resolves to index `ti`, cleanup remaps
every face on the tag slot to slot 0, decrements every face index above
`ti`, keeps the rest, and removes the slot — so every face NOT tagged with
the removed slot refers to the same material after cleanup as before
(faces tagged with the removed slot are reassigned to slot 0). -/
theorem cleanup_preserves_untagged_materials (slots : List String)
    (tagName : String) (faceMats : List Nat) (ti : Nat)
    (hti : slots.findIdx? (fun n => n == tagName) = some ti) :
    cleanup_tag_material slots tagName faceMats =
      (slots.eraseIdx ti, faceMats.map (cleanupRemap ti)) ∧
    (∀ m, m = ti → cleanupRemap ti m = 0) ∧
    (∀ m, ti < m → cleanupRemap ti m = m - 1) ∧
    ∀ m, m ≠ ti → m < slots.length →
      (slots.eraseIdx ti)[cleanupRemap ti m]? = slots[m]? := by
  refine ⟨?_, ?_, ?_, ?_⟩
  · unfold cleanup_tag_material
    rw [hti]
  · intro m hm
    simp [cleanupRemap, hm]
  · intro m hm
    simp [cleanupRemap, hm, Nat.ne_of_gt hm]
  · intro m hne hlt
    rcases Nat.lt_or_ge m ti with hmt | hmt
    · have hr : cleanupRemap ti m = m := by
        simp [cleanupRemap, hne, Nat.not_lt.mpr (Nat.le_of_lt hmt)]
      rw [hr]
      exact List.getElem?_eraseIdx_of_lt _ _ _ hmt
    · have hgt : ti < m := by omega
      have hr : cleanupRemap ti m = m - 1 := by
        simp [cleanupRemap, hne, hgt]
      rw [hr]
      have hge : ti ≤ m - 1 := by omega
      have := List.getElem?_eraseIdx_of_ge slots ti (m - 1) hge
      rw [this]
      congr 1
      omega

/-- Witness for the amended C2 statement on the slot list
`["Base", "TAG", "Metal"]` with the tag at index 1: a face on slot 2 is
renumbered to slot 1 and still refers to `"Metal"`. -/
theorem cleanup_preserves_untagged_materials_witness :
    cleanup_tag_material ["Base", "TAG", "Metal"] "TAG" [0, 2] =
      (["Base", "Metal"], [0, 1]) ∧
    ((["Base", "TAG", "Metal"] : List String).eraseIdx 1)[cleanupRemap 1 2]? =
      (["Base", "TAG", "Metal"] : List String)[2]? := by
  have h := cleanup_preserves_untagged_materials ["Base", "TAG", "Metal"] "TAG"
    [0, 2] 1 (by rfl)
  refine ⟨?_, h.2.2.2 2 (by decide) (by decide)⟩
  rw [h.1]
  rfl

/-- C4 counterexample: `ACN_OT_from_sharp.execute` in
`non_destructive_normals.py` on a mesh with no sharp edge and an existing
backup cancels with a zero propagation count, yet its backup slot has been
overwritten with the current mesh before the check ran. -/
theorem nd_from_sharp_overwrites_backup_counterexample :
    (acn_nd_from_sharp_execute id
        ⟨⟨[], [], [⟨[0, 1], 1, 0, true, false⟩]⟩, "Cube",
         [("Cube_ACN_Backup", ⟨[(1, 2, 3)], [], []⟩)], none, []⟩).1 = .CANCELLED ∧
    (sharp_edges_to_bevel_weight [⟨[0, 1], 1, 0, true, false⟩]).2 = 0 ∧
    (acn_nd_from_sharp_execute id
        ⟨⟨[], [], [⟨[0, 1], 1, 0, true, false⟩]⟩, "Cube",
         [("Cube_ACN_Backup", ⟨[(1, 2, 3)], [], []⟩)], none, []⟩).2.backups ≠
      [("Cube_ACN_Backup", ⟨[(1, 2, 3)], [], []⟩)] := by
  refine ⟨rfl, rfl, by decide⟩

/-- C4 (amended): the `normalforge.py` and `auto_custom_normals.py` workflow
operators cancel on a zero propagation count before creating or overwriting
any mesh backup and before adding any tag material slot; the
`non_destructive_normals.py` sharp/seam/auto-sharp operators instead create
the backup before the check, so only the backup may change on their zero
path. -/
theorem noop_cancel_preserves_backup_and_slots (wf : NFState → NFState)
    (s : NFState) (t : ℚ) (freshName : String) :
    ((prepare_bevel_weights .angle s.objMesh.edges t).2 = 0 →
      (nf_from_auto_sharp_execute wf s t freshName).1 = .CANCELLED ∧
      (nf_from_auto_sharp_execute wf s t freshName).2.backups = s.backups ∧
      (nf_from_auto_sharp_execute wf s t freshName).2.backupKey = s.backupKey ∧
      (nf_from_auto_sharp_execute wf s t freshName).2.materials = s.materials) ∧
    ((sharp_edges_to_bevel_weight s.objMesh.edges).2 = 0 →
      (acn_from_sharp_execute wf s freshName).1 = .CANCELLED ∧
      (acn_from_sharp_execute wf s freshName).2 = s) := by
  constructor
  · intro h
    unfold nf_from_auto_sharp_execute
    simp [h]
  · intro h
    unfold acn_from_sharp_execute
    simp [h]

/-- Witness for the amended C4 statement: a one-edge mesh whose angle 1 does
not exceed the threshold 5 cancels the normalforge operator with backups,
backup key and material slots untouched. -/
theorem noop_cancel_preserves_backup_and_slots_witness :
    (nf_from_auto_sharp_execute id
        ⟨⟨[], [], [⟨[0, 1], 1, 0, true, false⟩]⟩, "Cube", [], none, ["Mat"]⟩
        5 "b1").1 = .CANCELLED ∧
    (nf_from_auto_sharp_execute id
        ⟨⟨[], [], [⟨[0, 1], 1, 0, true, false⟩]⟩, "Cube", [], none, ["Mat"]⟩
        5 "b1").2.backups = [] ∧
    (nf_from_auto_sharp_execute id
        ⟨⟨[], [], [⟨[0, 1], 1, 0, true, false⟩]⟩, "Cube", [], none, ["Mat"]⟩
        5 "b1").2.materials = ["Mat"] := by
  have h := (noop_cancel_preserves_backup_and_slots id
    ⟨⟨[], [], [⟨[0, 1], 1, 0, true, false⟩]⟩, "Cube", [], none, ["Mat"]⟩
    5 "b1").1 (by decide)
  exact ⟨h.1, h.2.1, h.2.2.2⟩

/-- Helper: looking up a key appended at the end of an association list none
of whose keys equals it finds the appended value. -/
theorem lookup_append_singleton {β : Type} (l : List (String × β)) (k : String)
    (v : β) (h : ∀ p ∈ l, p.1 ≠ k) : (l ++ [(k, v)]).lookup k = some v := by
  induction l with
  | nil => simp [List.lookup]
  | cons a l ih =>
      have ha : a.1 ≠ k := h a (List.mem_cons_self a l)
      have hne : (k == a.1) = false := beq_false_of_ne (fun hk => ha hk.symm)
      rcases a with ⟨a1, a2⟩
      simp only [List.cons_append, List.lookup_cons, hne]
      exact ih (fun p hp => h p (List.mem_cons_of_mem _ hp))

/-- C9 (confirmed): creating a snapshot under a fresh datablock name and
restoring it — even after the object's live mesh was arbitrarily mutated in
between — succeeds and brings back exactly the vertex positions, face
winding and edge attributes the mesh had at create time; afterwards no
snapshot is associated (`has_backup` is false) and a second restore without
a new create fails, leaving the state unchanged. -/
theorem snapshot_create_restore_roundtrip (s : NFState) (freshName : String)
    (mid : MeshData) (hfresh : ∀ p ∈ s.backups, p.1 ≠ freshName) :
    (restore_mesh_backup
        { create_mesh_backup s freshName with objMesh := mid }).1 = true ∧
    (restore_mesh_backup
        { create_mesh_backup s freshName with objMesh := mid }).2.objMesh.verts
      = s.objMesh.verts ∧
    (restore_mesh_backup
        { create_mesh_backup s freshName with objMesh := mid }).2.objMesh.faces
      = s.objMesh.faces ∧
    (restore_mesh_backup
        { create_mesh_backup s freshName with objMesh := mid }).2.objMesh.edges
      = s.objMesh.edges ∧
    has_backup (restore_mesh_backup
        { create_mesh_backup s freshName with objMesh := mid }).2 = false ∧
    restore_mesh_backup (restore_mesh_backup
        { create_mesh_backup s freshName with objMesh := mid }).2 =
      (false, (restore_mesh_backup
        { create_mesh_backup s freshName with objMesh := mid }).2) := by
  rcases s with ⟨om, omn, bks, bkey, mats⟩
  cases bkey with
  | none =>
      have hlk : ((bks ++ [(freshName, om)]).lookup freshName) = some om :=
        lookup_append_singleton bks freshName om (fun p hp => hfresh p hp)
      simp only [create_mesh_backup, restore_mesh_backup, has_backup, hlk]
      simp
  | some old =>
      have hlk : (((bks.eraseP (fun p => p.1 == old)) ++ [(freshName, om)]).lookup
          freshName) = some om :=
        lookup_append_singleton _ freshName om
          (fun p hp => hfresh p (List.mem_of_mem_eraseP hp))
      simp only [create_mesh_backup, restore_mesh_backup, has_backup, hlk]
      simp

/-- Witness for C9 at a concrete one-vertex mesh, a pre-existing unrelated
backup, and an intervening mutation of the live mesh. -/
theorem snapshot_create_restore_roundtrip_witness :
    (restore_mesh_backup
        { create_mesh_backup
            ⟨⟨[(1, 2, 3)], [[0]], []⟩, "Cube", [("other", ⟨[], [], []⟩)], none, []⟩
            "bk1" with objMesh := ⟨[(9, 9, 9)], [], []⟩ }).1 = true ∧
    (restore_mesh_backup
        { create_mesh_backup
            ⟨⟨[(1, 2, 3)], [[0]], []⟩, "Cube", [("other", ⟨[], [], []⟩)], none, []⟩
            "bk1" with objMesh := ⟨[(9, 9, 9)], [], []⟩ }).2.objMesh.verts
      = [(1, 2, 3)] ∧
    has_backup (restore_mesh_backup
        { create_mesh_backup
            ⟨⟨[(1, 2, 3)], [[0]], []⟩, "Cube", [("other", ⟨[], [], []⟩)], none, []⟩
            "bk1" with objMesh := ⟨[(9, 9, 9)], [], []⟩ }).2 = false := by
  have h := snapshot_create_restore_roundtrip
    ⟨⟨[(1, 2, 3)], [[0]], []⟩, "Cube", [("other", ⟨[], [], []⟩)], none, []⟩
    "bk1" ⟨[(9, 9, 9)], [], []⟩ (by decide)
  exact ⟨h.1, h.2.1, h.2.2.2.2.1⟩

/-- Membership in the small partition of `detect_bevel_faces`. -/
theorem mem_smallSet {m : DMesh} {r : ℚ} {i : Nat} :
    i ∈ smallSet m r ↔ ∃ f, f ∈ m.faces ∧ f.area < cutoffOf m r ∧ f.index = i := by
  unfold smallSet
  simp [List.mem_filter, and_assoc]

/-- Membership in the large partition of `detect_bevel_faces`. -/
theorem mem_largeSet {m : DMesh} {r : ℚ} {i : Nat} :
    i ∈ largeSet m r ↔ ∃ f, f ∈ m.faces ∧ ¬ f.area < cutoffOf m r ∧ f.index = i := by
  unfold largeSet
  simp [List.mem_filter, and_assoc]

/-- Helper: any of the three early-exit guards of `detect_bevel_faces`
yields the zero abort result. -/
theorem detect_bevel_faces_abort {m : DMesh} {r : ℚ} (h : detectAborts m r) :
    detect_bevel_faces m r = (0, ∅) := by
  by_cases h1 : m.faces.length < 2
  · simp [detect_bevel_faces, h1]
  · by_cases h2 : medianArea (m.faces.map DFace.area) ≤ 0
    · simp [detect_bevel_faces, h1, h2]
    · rcases h with h | h | h | h
      · exact absurd h h1
      · exact absurd h h2
      · simp [detect_bevel_faces, h1, h2, h]
      · simp [detect_bevel_faces, h1, h2, h]

/-- C8 (confirmed): `detect_bevel_faces` returns zero classified faces and
the empty set when the mesh has fewer than 2 faces, and whenever the small
or the large partition is empty; in particular a one-face mesh, and a mesh
whose faces all have equal area, always produce this abort result. -/
theorem detect_bevel_faces_abort_conditions (m : DMesh) (r : ℚ) :
    (m.faces.length < 2 → detect_bevel_faces m r = (0, ∅)) ∧
    (smallSet m r = ∅ ∨ largeSet m r = ∅ → detect_bevel_faces m r = (0, ∅)) ∧
    (m.faces.length = 1 → detect_bevel_faces m r = (0, ∅)) ∧
    ((∀ f ∈ m.faces, ∀ g ∈ m.faces, f.area = g.area) →
      detect_bevel_faces m r = (0, ∅)) := by
  refine ⟨?_, ?_, ?_, ?_⟩
  · intro h
    exact detect_bevel_faces_abort (Or.inl h)
  · intro h
    rcases h with h | h
    · exact detect_bevel_faces_abort (Or.inr (Or.inr (Or.inl h)))
    · exact detect_bevel_faces_abort (Or.inr (Or.inr (Or.inr h)))
  · intro h
    exact detect_bevel_faces_abort (Or.inl (by omega))
  · intro heq
    cases hm : m.faces with
    | nil => exact detect_bevel_faces_abort (Or.inl (by simp [hm]))
    | cons f0 fs =>
        have hf0 : f0 ∈ m.faces := by rw [hm]; exact List.mem_cons_self f0 fs
        by_cases hc : f0.area < cutoffOf m r
        · refine detect_bevel_faces_abort (Or.inr (Or.inr (Or.inr ?_)))
          rw [Finset.eq_empty_iff_forall_not_mem]
          intro i hi
          rcases mem_largeSet.mp hi with ⟨g, hg, hgc, _⟩
          exact hgc (heq g hg f0 hf0 ▸ hc)
        · refine detect_bevel_faces_abort (Or.inr (Or.inr (Or.inl ?_)))
          rw [Finset.eq_empty_iff_forall_not_mem]
          intro i hi
          rcases mem_smallSet.mp hi with ⟨g, hg, hgc, _⟩
          exact hc (heq g hg f0 hf0 ▸ hgc)

/-- Witness for C8 at a one-face mesh and at a two-face equal-area mesh. -/
theorem detect_bevel_faces_abort_conditions_witness :
    detect_bevel_faces ⟨[⟨0, 4, {0}⟩]⟩ (1 / 2) = (0, ∅) ∧
    detect_bevel_faces ⟨[⟨0, 3, {0}⟩, ⟨1, 3, {0}⟩]⟩ (1 / 2) = (0, ∅) := by
  constructor
  · exact (detect_bevel_faces_abort_conditions ⟨[⟨0, 4, {0}⟩]⟩ (1 / 2)).2.2.1 rfl
  · refine (detect_bevel_faces_abort_conditions ⟨[⟨0, 3, {0}⟩, ⟨1, 3, {0}⟩]⟩
      (1 / 2)).2.2.2 ?_
    intro f hf g hg
    fin_cases hf <;> fin_cases hg <;> rfl

/-- Helper: the flood fill only ever confirms small faces. -/
theorem floodFill_subset_small (nbrs : Nat → Finset Nat) (small : Finset Nat)
    (c F : Finset Nat) (hf : F ⊆ small) (hc : c ⊆ small) :
    floodFill nbrs small c F hf ⊆ small := by
  revert hc
  induction c, F, hf using floodFill.induct nbrs small with
  | case1 c F hf h hx ih =>
      intro hc
      rw [floodFill]
      rw [dif_pos h, dif_pos hx]
      exact ih hc
  | case2 c F hf h hx ih =>
      intro hc
      rw [floodFill]
      rw [dif_pos h, dif_neg hx]
      exact ih (Finset.insert_subset (hf (F.min'_mem h)) hc)
  | case3 c F hf h =>
      intro hc
      rw [floodFill]
      rw [dif_neg h]
      exact hc

/-- Helper: the two partitions cover exactly the face indices of the mesh. -/
theorem smallSet_union_largeSet (m : DMesh) (r : ℚ) :
    smallSet m r ∪ largeSet m r = (m.faces.map DFace.index).toFinset := by
  ext i
  simp only [Finset.mem_union, mem_smallSet, mem_largeSet, List.mem_toFinset,
    List.mem_map]
  constructor
  · rintro (⟨f, hf, _, hfi⟩ | ⟨f, hf, _, hfi⟩) <;> exact ⟨f, hf, hfi⟩
  · rintro ⟨f, hf, hfi⟩
    by_cases hc : f.area < cutoffOf m r
    · exact Or.inl ⟨f, hf, hc, hfi⟩
    · exact Or.inr ⟨f, hf, hc, hfi⟩

/-- Helper: with distinct face indices the two partitions are disjoint. -/
theorem smallSet_disjoint_largeSet (m : DMesh) (r : ℚ)
    (hnd : (m.faces.map DFace.index).Nodup) :
    Disjoint (smallSet m r) (largeSet m r) := by
  rw [Finset.disjoint_left]
  intro i hs hl
  rcases mem_smallSet.mp hs with ⟨f, hf, hfc, hfi⟩
  rcases mem_largeSet.mp hl with ⟨g, hg, hgc, hgi⟩
  have hfg : f = g := List.inj_on_of_nodup_map hnd hf hg (by rw [hfi, hgi])
  rw [hfg] at hfc
  exact hgc hfc

/-- Helper: on the non-abort path `detect_bevel_faces` returns the
confirmed count and the original set built from the flood fill. -/
theorem detect_bevel_faces_of_not_abort {m : DMesh} {r : ℚ}
    (h : ¬ detectAborts m r) :
    detect_bevel_faces m r =
      ((confirmedSet m r).card,
       largeSet m r ∪ (smallSet m r \ confirmedSet m r)) := by
  unfold detectAborts at h
  push_neg at h
  obtain ⟨h1, h2, h3, h4⟩ := h
  have h1n : ¬ m.faces.length < 2 := by omega
  have h2n : ¬ medianArea (m.faces.map DFace.area) ≤ 0 := not_le.mpr h2
  have h34 : ¬ (smallSet m r = ∅ ∨ largeSet m r = ∅) := by
    rintro (hh | hh)
    · exact h3 hh
    · exact h4 hh
  unfold detect_bevel_faces
  rw [if_neg h1n, if_neg h2n, if_neg h34]

/-- C10 (confirmed): on a non-aborting run over a mesh with distinct face
indices the returned original face index set and the confirmed bevel set
are disjoint, their union is exactly the set of all face indices, and the
returned count equals the number of faces minus the size of the original
set. -/
theorem detect_bevel_faces_partition (m : DMesh) (r : ℚ)
    (hnd : (m.faces.map DFace.index).Nodup) (hab : ¬ detectAborts m r) :
    Disjoint (detect_bevel_faces m r).2 (confirmedSet m r) ∧
    (detect_bevel_faces m r).2 ∪ confirmedSet m r =
      (m.faces.map DFace.index).toFinset ∧
    (detect_bevel_faces m r).1 =
      m.faces.length - (detect_bevel_faces m r).2.card := by
  have hd := detect_bevel_faces_of_not_abort hab
  have hcs : confirmedSet m r ⊆ smallSet m r :=
    floodFill_subset_small _ _ _ _ _ (Finset.empty_subset _)
  have hdisjSL := smallSet_disjoint_largeSet m r hnd
  have hun := smallSet_union_largeSet m r
  have hdisjOC : Disjoint (largeSet m r ∪ (smallSet m r \ confirmedSet m r))
      (confirmedSet m r) := by
    rw [Finset.disjoint_union_left]
    exact ⟨(hdisjSL.symm).mono_right hcs, Finset.sdiff_disjoint⟩
  have hunOC : (largeSet m r ∪ (smallSet m r \ confirmedSet m r)) ∪
      confirmedSet m r = (m.faces.map DFace.index).toFinset := by
    rw [Finset.union_assoc, Finset.sdiff_union_of_subset hcs, Finset.union_comm]
    exact hun
  have hcardAll : (m.faces.map DFace.index).toFinset.card = m.faces.length := by
    rw [List.toFinset_card_of_nodup hnd, List.length_map]
  refine ⟨?_, ?_, ?_⟩
  · rw [hd]
    exact hdisjOC
  · rw [hd]
    exact hunOC
  · rw [hd]
    show (confirmedSet m r).card =
      m.faces.length - (largeSet m r ∪ (smallSet m r \ confirmedSet m r)).card
    have hcu := Finset.card_union_of_disjoint hdisjOC
    rw [hunOC, hcardAll] at hcu
    omega

/-- Concrete four-face test mesh: faces 0 and 1 are large (area 4), faces 2
and 3 are small (area 1), face 2 shares edge 10 with face 0 and face 3
shares edge 11 with face 1. -/
def demoMesh : DMesh :=
  ⟨[⟨0, 4, {10}⟩, ⟨1, 4, {11}⟩, ⟨2, 1, {10}⟩, ⟨3, 1, {11}⟩]⟩

/-- Helper: the classification cutoff of the demo mesh at quotient 1/2. -/
theorem demoMesh_cutoff : cutoffOf demoMesh (1 / 2) = 2 := by
  have hm : medianArea (demoMesh.faces.map DFace.area) = 4 := by decide
  unfold cutoffOf
  rw [hm]
  norm_num

/-- Helper: the small partition of the demo mesh. -/
theorem demoMesh_small : smallSet demoMesh (1 / 2) = {2, 3} := by
  unfold smallSet
  rw [demoMesh_cutoff]
  decide

/-- Helper: the large partition of the demo mesh. -/
theorem demoMesh_large : largeSet demoMesh (1 / 2) = {0, 1} := by
  unfold largeSet
  rw [demoMesh_cutoff]
  decide

/-- Helper: the flood-fill seeds of the demo mesh. -/
theorem demoMesh_seeds : seedsOf demoMesh (1 / 2) = {2, 3} := by
  unfold seedsOf
  rw [demoMesh_small, demoMesh_large]
  decide

/-- Helper: the demo mesh does not abort. -/
theorem demoMesh_not_abort : ¬ detectAborts demoMesh (1 / 2) := by
  unfold detectAborts
  push_neg
  refine ⟨by decide, by decide, ?_, ?_⟩
  · rw [demoMesh_small]
    decide
  · rw [demoMesh_large]
    decide

/-- Witness for C10 at the demo mesh. -/
theorem detect_bevel_faces_partition_witness :
    Disjoint (detect_bevel_faces demoMesh (1 / 2)).2
      (confirmedSet demoMesh (1 / 2)) ∧
    (detect_bevel_faces demoMesh (1 / 2)).2 ∪ confirmedSet demoMesh (1 / 2) =
      (demoMesh.faces.map DFace.index).toFinset ∧
    (detect_bevel_faces demoMesh (1 / 2)).1 =
      demoMesh.faces.length - (detect_bevel_faces demoMesh (1 / 2)).2.card :=
  detect_bevel_faces_partition demoMesh (1 / 2) (by decide) demoMesh_not_abort

/-- Helper: both endpoints of a `ReachAvoid` path are small and outside the
avoided set. -/
theorem reachAvoid_ends {nbrs : Nat → Finset Nat} {small avoid : Finset Nat}
    {x y : Nat} (h : ReachAvoid nbrs small avoid x y) :
    x ∈ small ∧ x ∉ avoid ∧ y ∈ small ∧ y ∉ avoid := by
  induction h with
  | refl hs ha => exact ⟨hs, ha, hs, ha⟩
  | tail b c hab hc hcs hca ih => exact ⟨ih.1, ih.2.1, hcs, hca⟩

/-- Helper: a path avoiding `avoid` whose endpoint differs from `x` either
avoids `x` entirely, or passes through a small neighbour of `x` from which
the endpoint is reachable avoiding `insert x avoid`. -/
theorem reachAvoid_insert_avoid {nbrs : Nat → Finset Nat} {small avoid : Finset Nat}
    {x f y : Nat} (h : ReachAvoid nbrs small avoid f y) :
    y ≠ x →
    (f ≠ x ∧ ReachAvoid nbrs small (insert x avoid) f y) ∨
    (∃ z, z ∈ nbrs x ∧ z ∈ small ∧ z ∉ insert x avoid ∧
      ReachAvoid nbrs small (insert x avoid) z y) := by
  induction h with
  | refl hs ha =>
      intro hyx
      exact Or.inl ⟨hyx, ReachAvoid.refl hs
        (fun hmem => (Finset.mem_insert.mp hmem).elim hyx ha)⟩
  | tail b c hab hc hcs hca ih =>
      intro hyx
      have hnc : c ∉ insert x avoid :=
        fun hmem => (Finset.mem_insert.mp hmem).elim hyx hca
      by_cases hbx : b = x
      · refine Or.inr ⟨c, ?_, hcs, hnc, ReachAvoid.refl hcs hnc⟩
        rw [← hbx]
        exact hc
      · rcases ih hbx with ⟨hax, hab2⟩ | ⟨z, hz1, hz2, hz3, hzb⟩
        · exact Or.inl ⟨hax, ReachAvoid.tail b c hab2 hc hcs hnc⟩
        · exact Or.inr ⟨z, hz1, hz2, hz3, ReachAvoid.tail b c hzb hc hcs hnc⟩

/-- Helper (soundness preservation): a flood step keeps every confirmed and
every frontier face seed-reachable. -/
theorem floodStep_sound {nbrs : Nat → Finset Nat} {small F0 : Finset Nat}
    {s t : Finset Nat × Finset Nat} (hstep : FloodStep nbrs small s t)
    (hc : ∀ y ∈ s.1, FloodReach nbrs small F0 y)
    (hF : ∀ y ∈ s.2, FloodReach nbrs small F0 y) :
    (∀ y ∈ t.1, FloodReach nbrs small F0 y) ∧
    (∀ y ∈ t.2, FloodReach nbrs small F0 y) := by
  cases hstep with
  | skip c F x hxF hxc =>
      exact ⟨hc, fun y hy => hF y (Finset.mem_of_mem_erase hy)⟩
  | confirm c F x hxF hxc =>
      constructor
      · intro y hy
        rcases Finset.mem_insert.mp hy with hyx | hy2
        · rw [hyx]
          exact hF x hxF
        · exact hc y hy2
      · intro y hy
        rcases Finset.mem_union.mp hy with hy2 | hy2
        · exact hF y (Finset.mem_of_mem_erase hy2)
        · rcases Finset.mem_sdiff.mp hy2 with ⟨hy3, _⟩
          rcases Finset.mem_inter.mp hy3 with ⟨hyn, hys⟩
          rcases hF x hxF with ⟨f, hf, hp⟩
          exact ⟨f, hf, ReachAvoid.tail x y hp hyn hys (Finset.not_mem_empty y)⟩

/-- Helper (completeness preservation): after a flood step, every
seed-reachable face is confirmed or still reachable from the frontier while
avoiding the confirmed set. -/
theorem floodStep_complete {nbrs : Nat → Finset Nat} {small F0 : Finset Nat}
    {s t : Finset Nat × Finset Nat} (hstep : FloodStep nbrs small s t)
    (hinv : ∀ y, FloodReach nbrs small F0 y →
      y ∈ s.1 ∨ ∃ f ∈ s.2, ReachAvoid nbrs small s.1 f y) :
    ∀ y, FloodReach nbrs small F0 y →
      y ∈ t.1 ∨ ∃ f ∈ t.2, ReachAvoid nbrs small t.1 f y := by
  cases hstep with
  | skip c F x hxF hxc =>
      intro y hy
      rcases hinv y hy with h | ⟨f, hf, hp⟩
      · exact Or.inl h
      · have hfc : f ∉ c := (reachAvoid_ends hp).2.1
        have hfx : f ≠ x := fun he => hfc (he ▸ hxc)
        exact Or.inr ⟨f, Finset.mem_erase.mpr ⟨hfx, hf⟩, hp⟩
  | confirm c F x hxF hxc =>
      intro y hy
      by_cases hyx : y = x
      · left
        rw [hyx]
        exact Finset.mem_insert_self x c
      · rcases hinv y hy with h | ⟨f, hf, hp⟩
        · exact Or.inl (Finset.mem_insert_of_mem h)
        · right
          rcases reachAvoid_insert_avoid hp hyx with ⟨hfx, hp2⟩ |
            ⟨z, hz1, hz2, hz3, hzp⟩
          · exact ⟨f, Finset.mem_union_left _ (Finset.mem_erase.mpr ⟨hfx, hf⟩), hp2⟩
          · exact ⟨z, Finset.mem_union_right _
              (Finset.mem_sdiff.mpr ⟨Finset.mem_inter.mpr ⟨hz1, hz2⟩, hz3⟩), hzp⟩

/-- Helper: both invariants hold along any execution started from an empty
confirmed set and a small seed frontier. -/
theorem floodExec_invariants {nbrs : Nat → Finset Nat} {small F0 : Finset Nat}
    (hF0 : F0 ⊆ small) {s : Finset Nat × Finset Nat}
    (hexec : FloodExec nbrs small (∅, F0) s) :
    (∀ y ∈ s.1, FloodReach nbrs small F0 y) ∧
    (∀ y ∈ s.2, FloodReach nbrs small F0 y) ∧
    (∀ y, FloodReach nbrs small F0 y →
      y ∈ s.1 ∨ ∃ f ∈ s.2, ReachAvoid nbrs small s.1 f y) := by
  induction hexec with
  | refl =>
      refine ⟨fun y hy => absurd hy (Finset.not_mem_empty y),
        fun y hy => ⟨y, hy, ReachAvoid.refl (hF0 hy) (Finset.not_mem_empty y)⟩,
        fun y hy => ?_⟩
      rcases hy with ⟨f, hf, hp⟩
      exact Or.inr ⟨f, hf, hp⟩
  | tail hab hbc ih =>
      exact ⟨(floodStep_sound hbc ih.1 ih.2.1).1,
        (floodStep_sound hbc ih.1 ih.2.1).2,
        floodStep_complete hbc ih.2.2⟩

/-- Helper: at any terminated execution the confirmed set is exactly the set
of seed-reachable faces. -/
theorem floodDone_confirmed_iff_reach {nbrs : Nat → Finset Nat}
    {small F0 : Finset Nat} (hF0 : F0 ⊆ small) {s : Finset Nat × Finset Nat}
    (hexec : FloodExec nbrs small (∅, F0) s) (hdone : FloodDone s) :
    ∀ y, y ∈ s.1 ↔ FloodReach nbrs small F0 y := by
  obtain ⟨h1, _, h3⟩ := floodExec_invariants hF0 hexec
  intro y
  constructor
  · exact h1 y
  · intro hy
    rcases h3 y hy with h | ⟨f, hf, _⟩
    · exact h
    · rw [FloodDone] at hdone
      rw [hdone] at hf
      exact absurd hf (Finset.not_mem_empty f)

/-- C7 (confirmed): for a fixed mesh and detection quotient, any two
terminating runs of the flood-fill loop of `detect_bevel_faces` from its
initial state — whatever order the `set.pop` calls chose — produce the same
confirmed set, hence the same confirmed-bevel count and an identical
original face index set. -/
theorem detect_flood_deterministic (m : DMesh) (r : ℚ)
    (s1 s2 : Finset Nat × Finset Nat)
    (h1 : FloodExec (neighborsOf m) (smallSet m r) (initFlood m r) s1)
    (h2 : FloodExec (neighborsOf m) (smallSet m r) (initFlood m r) s2)
    (d1 : FloodDone s1) (d2 : FloodDone s2) :
    s1.1 = s2.1 ∧ s1.1.card = s2.1.card ∧
    largeSet m r ∪ (smallSet m r \ s1.1) =
      largeSet m r ∪ (smallSet m r \ s2.1) := by
  have hsub := seedsOf_subset_smallSet m r
  have hc1 := floodDone_confirmed_iff_reach hsub h1 d1
  have hc2 := floodDone_confirmed_iff_reach hsub h2 d2
  have heq : s1.1 = s2.1 := Finset.ext (fun y => (hc1 y).trans (hc2 y).symm)
  exact ⟨heq, by rw [heq], by rw [heq]⟩

/-- Witness for C7: on the demo mesh, the execution confirming face 2 before
face 3 and the execution confirming face 3 before face 2 both terminate,
and the claim theorem yields equal confirmed sets and counts. -/
theorem detect_flood_deterministic_witness :
    (({2, 3} : Finset Nat), (∅ : Finset Nat)).1 =
      (({3, 2} : Finset Nat), (∅ : Finset Nat)).1 ∧
    (({2, 3} : Finset Nat), (∅ : Finset Nat)).1.card =
      (({3, 2} : Finset Nat), (∅ : Finset Nat)).1.card := by
  have h2s : 2 ∈ seedsOf demoMesh (1 / 2) := by
    rw [demoMesh_seeds]
    decide
  have h3s : 3 ∈ seedsOf demoMesh (1 / 2) := by
    rw [demoMesh_seeds]
    decide
  have stA1 : FloodStep (neighborsOf demoMesh) (smallSet demoMesh (1 / 2))
      (∅, seedsOf demoMesh (1 / 2)) ({2}, {3}) := by
    have h := @FloodStep.confirm (neighborsOf demoMesh) (smallSet demoMesh (1 / 2))
      ∅ (seedsOf demoMesh (1 / 2)) 2 h2s (Finset.not_mem_empty 2)
    have he : (insert 2 (∅ : Finset Nat),
        (seedsOf demoMesh (1 / 2)).erase 2 ∪
          ((neighborsOf demoMesh 2 ∩ smallSet demoMesh (1 / 2)) \ insert 2 ∅)) =
        (({2} : Finset Nat), ({3} : Finset Nat)) := by
      rw [demoMesh_seeds, demoMesh_small]
      decide
    rwa [he] at h
  have stA2 : FloodStep (neighborsOf demoMesh) (smallSet demoMesh (1 / 2))
      ({2}, {3}) ({2, 3}, ∅) := by
    have h := @FloodStep.confirm (neighborsOf demoMesh) (smallSet demoMesh (1 / 2))
      {2} {3} 3 (by decide) (by decide)
    have he : (insert 3 ({2} : Finset Nat),
        ({3} : Finset Nat).erase 3 ∪
          ((neighborsOf demoMesh 3 ∩ smallSet demoMesh (1 / 2)) \ insert 3 {2})) =
        (({2, 3} : Finset Nat), (∅ : Finset Nat)) := by
      rw [demoMesh_small]
      decide
    rwa [he] at h
  have stB1 : FloodStep (neighborsOf demoMesh) (smallSet demoMesh (1 / 2))
      (∅, seedsOf demoMesh (1 / 2)) ({3}, {2}) := by
    have h := @FloodStep.confirm (neighborsOf demoMesh) (smallSet demoMesh (1 / 2))
      ∅ (seedsOf demoMesh (1 / 2)) 3 h3s (Finset.not_mem_empty 3)
    have he : (insert 3 (∅ : Finset Nat),
        (seedsOf demoMesh (1 / 2)).erase 3 ∪
          ((neighborsOf demoMesh 3 ∩ smallSet demoMesh (1 / 2)) \ insert 3 ∅)) =
        (({3} : Finset Nat), ({2} : Finset Nat)) := by
      rw [demoMesh_seeds, demoMesh_small]
      decide
    rwa [he] at h
  have stB2 : FloodStep (neighborsOf demoMesh) (smallSet demoMesh (1 / 2))
      ({3}, {2}) ({3, 2}, ∅) := by
    have h := @FloodStep.confirm (neighborsOf demoMesh) (smallSet demoMesh (1 / 2))
      {3} {2} 2 (by decide) (by decide)
    have he : (insert 2 ({3} : Finset Nat),
        ({2} : Finset Nat).erase 2 ∪
          ((neighborsOf demoMesh 2 ∩ smallSet demoMesh (1 / 2)) \ insert 2 {3})) =
        (({3, 2} : Finset Nat), (∅ : Finset Nat)) := by
      rw [demoMesh_small]
      decide
    rwa [he] at h
  have execA : FloodExec (neighborsOf demoMesh) (smallSet demoMesh (1 / 2))
      (initFlood demoMesh (1 / 2)) ({2, 3}, ∅) :=
    Relation.ReflTransGen.tail
      (Relation.ReflTransGen.tail Relation.ReflTransGen.refl stA1) stA2
  have execB : FloodExec (neighborsOf demoMesh) (smallSet demoMesh (1 / 2))
      (initFlood demoMesh (1 / 2)) ({3, 2}, ∅) :=
    Relation.ReflTransGen.tail
      (Relation.ReflTransGen.tail Relation.ReflTransGen.refl stB1) stB2
  have h := detect_flood_deterministic demoMesh (1 / 2) ({2, 3}, ∅) ({3, 2}, ∅)
    execA execB rfl rfl
  exact ⟨h.1, h.2.1⟩
